import Mathlib

/-!
# Verification of the trading-expectancy simulation engine

Shallow embedding of the computational core of the application:
the losing-streak estimator `calculate_losing_streak` and the trade
simulator `run_simulation` (a loop over a drawn Win/Loss outcome
sequence threading balance, peak and drawdown state, followed by
summary statistics).  Currency amounts, rates and percentages are
modelled as rationals (the simulator uses only field operations);
the logarithm-based estimator is modelled over the reals, with
`EReal` capturing the `float('inf')` sentinel.
-/

namespace TradeSim

/-- A trade outcome: the `'Win'` / `'Loss'` strings drawn by the outcome
generator. -/
inductive Outcome : Type
  | win : Outcome
  | loss : Outcome
deriving DecidableEq, Repr

/-- One row appended to `results` per simulated trade (keys
`'Trade Number'`, `'Win/Loss'`, `'Pre-Balance'`, `'Risk Amount'`, `'P&L'`,
`'After-Balance'`, `'Drawdown'`, `'Peak Balance'`). -/
structure TradeRecord : Type where
  tradeNumber : Nat
  winLoss : Outcome
  preBalance : ℚ
  riskAmount : ℚ
  pnl : ℚ
  afterBalance : ℚ
  drawdown : ℚ
  peakBalance : ℚ
deriving DecidableEq, Repr

/-- The mutable loop state of `run_simulation`: `current_balance`,
`peak_balance`, `max_drawdown`, `win_count`. -/
structure SimState : Type where
  currentBalance : ℚ
  peakBalance : ℚ
  maxDrawdown : ℚ
  winCount : Nat
deriving DecidableEq, Repr

/-- The state initialisation before the loop: both balances start at
`account_balance`, max drawdown and win count at zero. -/
def initState (accountBalance : ℚ) : SimState :=
  ⟨accountBalance, accountBalance, 0, 0⟩

/-- One iteration of the `for i in range(trade_count)` body of
`run_simulation` (source lines 95-133): risk sizing from the current
balance, P&L from the outcome, balance / peak / drawdown updates, and
the appended result row (the loop index `i` is 0-based, the recorded
trade number is `i + 1`). -/
def simTrade (riskPercent rewardRisk : ℚ) (s : SimState) (i : Nat) (o : Outcome) :
    SimState × TradeRecord :=
  let preBalance := s.currentBalance
  let riskAmount := s.currentBalance * riskPercent
  let pnl : ℚ := match o with
    | .win => riskAmount * rewardRisk
    | .loss => -riskAmount
  let winCount : Nat := match o with
    | .win => s.winCount + 1
    | .loss => s.winCount
  let currentBalance := s.currentBalance + pnl
  let peakBalance := if currentBalance > s.peakBalance then currentBalance else s.peakBalance
  let currentDrawdown : ℚ :=
    if peakBalance > 0 then (peakBalance - currentBalance) / peakBalance * 100 else 0
  let maxDrawdown := if currentDrawdown > s.maxDrawdown then currentDrawdown else s.maxDrawdown
  (⟨currentBalance, peakBalance, maxDrawdown, winCount⟩,
   ⟨i + 1, o, preBalance, riskAmount, pnl, currentBalance, currentDrawdown, peakBalance⟩)

/-- The simulation loop: folds `simTrade` over the outcome sequence,
accumulating the result rows in order and threading the state. -/
def simLoop (riskPercent rewardRisk : ℚ) (s : SimState) (i : Nat) :
    List Outcome → List TradeRecord × SimState
  | [] => ([], s)
  | o :: rest =>
    let step := simTrade riskPercent rewardRisk s i o
    let tail := simLoop riskPercent rewardRisk step.1 (i + 1) rest
    (step.2 :: tail.1, tail.2)

/-- Is this record a Win row?  (The `df['Win/Loss'] == 'Win'` filter.) -/
def isWinRec (r : TradeRecord) : Bool :=
  match r.winLoss with
  | .win => true
  | .loss => false

/-- Is this record a Loss row?  (The `df['Win/Loss'] == 'Loss'` filter.) -/
def isLossRec (r : TradeRecord) : Bool :=
  match r.winLoss with
  | .win => false
  | .loss => true

/-- The pandas `.mean()` of a list of rationals: sum divided by length
(only ever applied to non-empty lists, guarded by the caller exactly as
in the source). -/
def listMean (l : List ℚ) : ℚ :=
  l.sum / (l.length : ℚ)

/-- The summary dictionary built at the end of `run_simulation` (keys
`'Final Balance'`, `'Profit'`, `'Return'`, `'Max Drawdown'`,
`'Expectancy'`, `'Expectancy R'`, `'Actual Win Rate'`,
`'Minimum Win Rate'`, `'Trades'`). -/
structure SimSummary : Type where
  finalBalance : ℚ
  profit : ℚ
  returnPct : ℚ
  maxDrawdown : ℚ
  expectancy : ℚ
  expectancyR : ℚ
  actualWinRate : ℚ
  minWinRate : ℚ
  trades : Nat
deriving DecidableEq, Repr

/-- `run_simulation` (source lines 64-165) over a pre-drawn outcome
sequence: the loop produces the trade ledger, then the summary
statistics are computed from the final state and the ledger.
`trade_count` is the length of the drawn sequence (`np.random.choice`
returns exactly `size=trade_count` outcomes). -/
def run_simulation (accountBalance winRate rewardRisk riskPercent : ℚ)
    (outcomes : List Outcome) : List TradeRecord × SimSummary :=
  let res := simLoop riskPercent rewardRisk (initState accountBalance) 0 outcomes
  let records := res.1
  let s := res.2
  let tradeCount := outcomes.length
  let actualWinRate : ℚ := (s.winCount : ℚ) / (tradeCount : ℚ)
  let profit := s.currentBalance - accountBalance
  let returnPct := profit / accountBalance * 100
  let avgWin : ℚ :=
    if s.winCount > 0 then listMean ((records.filter isWinRec).map TradeRecord.pnl) else 0
  let avgLoss : ℚ :=
    if tradeCount - s.winCount > 0 then
      |listMean ((records.filter isLossRec).map TradeRecord.pnl)| else 0
  let expectancy := winRate * avgWin - (1 - winRate) * avgLoss
  let expectancyR := if avgLoss > 0 then expectancy / avgLoss else 0
  let minWinRate : ℚ := 1 / (1 + rewardRisk)
  (records,
   ⟨s.currentBalance, profit, returnPct, s.maxDrawdown, expectancy, expectancyR,
    actualWinRate * 100, minWinRate * 100, tradeCount⟩)

/-- The trade ledger alone (first component of `run_simulation`; the
ledger does not depend on the win rate, which only enters the drawn
outcomes and the summary). -/
def tradeLedger (accountBalance rewardRisk riskPercent : ℚ)
    (outcomes : List Outcome) : List TradeRecord :=
  (simLoop riskPercent rewardRisk (initState accountBalance) 0 outcomes).1

/-- Modelled from the spec: the pseudorandom outcome source (spec §4.1).
The repository draws outcomes through an external library's globally
seeded generator (`np.random.choice`), whose implementation is not part
of the repository source; per the spec it "must use a pseudorandom
source" that is "seedable (same seed + same inputs ⇒ identical
sequence)".  Modelled as a linear-congruential generator over a natural
seed. -/
def lcg (s : Nat) : Nat :=
  (1103515245 * s + 12345) % 2147483648

/-- Modelled from the spec: one Bernoulli draw (spec §4.1) — Win with
probability `win_rate`, from the uniform value the generator state
induces. -/
def bernoulliDraw (winRate : ℚ) (s : Nat) : Outcome :=
  if ((s % 1000000 : Nat) : ℚ) / 1000000 < winRate then .win else .loss

/-- Modelled from the spec: the outcome generator (spec §4.1) —
`trade_count` independent Bernoulli draws from a seeded deterministic
pseudorandom source. -/
def generateOutcomes (winRate : ℚ) : Nat → Nat → List Outcome
  | 0, _ => []
  | n + 1, seed => bernoulliDraw winRate (lcg seed) :: generateOutcomes winRate n (lcg seed)

/-- The `simulate` contract of spec §6: draw the outcome sequence from
the seeded source, then run the simulation. -/
def simulate (accountBalance winRate rewardRisk riskPercent : ℚ)
    (tradeCount : Nat) (seed : Nat) : List TradeRecord × SimSummary :=
  run_simulation accountBalance winRate rewardRisk riskPercent
    (generateOutcomes winRate tradeCount seed)

/-- `calculate_losing_streak` (source lines 39-61), over the reals with
`EReal` for the `float('inf')` sentinel: if the win rate is at least 1
return 0; if the denominator `log(1/(1-win_rate))` is zero return
infinity; otherwise return `log(sample_size)` divided by the
denominator.  Total by construction: every input yields a value, no
branch can fault. -/
noncomputable def calculate_losing_streak (winRate sampleSize : ℝ) : EReal :=
  if winRate ≥ 1 then (0 : EReal)
  else
    let denominator := Real.log (1 / (1 - winRate))
    if denominator = 0 then (⊤ : EReal)
    else ((Real.log sampleSize / denominator : ℝ) : EReal)

/-! ## Basic unfolding lemmas -/

theorem simLoop_nil (rp rr : ℚ) (s : SimState) (i : ℕ) :
    simLoop rp rr s i [] = ([], s) := rfl

theorem simLoop_cons (rp rr : ℚ) (s : SimState) (i : ℕ) (o : Outcome) (rest : List Outcome) :
    simLoop rp rr s i (o :: rest)
      = ((simTrade rp rr s i o).2 :: (simLoop rp rr (simTrade rp rr s i o).1 (i + 1) rest).1,
         (simLoop rp rr (simTrade rp rr s i o).1 (i + 1) rest).2) := rfl

theorem simTrade_snd_tradeNumber (rp rr : ℚ) (s : SimState) (i : ℕ) (o : Outcome) :
    ((simTrade rp rr s i o).2).tradeNumber = i + 1 := rfl

theorem simTrade_snd_winLoss (rp rr : ℚ) (s : SimState) (i : ℕ) (o : Outcome) :
    ((simTrade rp rr s i o).2).winLoss = o := rfl

theorem simTrade_snd_preBalance (rp rr : ℚ) (s : SimState) (i : ℕ) (o : Outcome) :
    ((simTrade rp rr s i o).2).preBalance = s.currentBalance := rfl

theorem simTrade_snd_riskAmount (rp rr : ℚ) (s : SimState) (i : ℕ) (o : Outcome) :
    ((simTrade rp rr s i o).2).riskAmount = s.currentBalance * rp := rfl

theorem simTrade_snd_pnl_win (rp rr : ℚ) (s : SimState) (i : ℕ) :
    ((simTrade rp rr s i Outcome.win).2).pnl = s.currentBalance * rp * rr := rfl

theorem simTrade_snd_pnl_loss (rp rr : ℚ) (s : SimState) (i : ℕ) :
    ((simTrade rp rr s i Outcome.loss).2).pnl = -(s.currentBalance * rp) := rfl

theorem simTrade_snd_afterBalance (rp rr : ℚ) (s : SimState) (i : ℕ) (o : Outcome) :
    ((simTrade rp rr s i o).2).afterBalance
      = ((simTrade rp rr s i o).2).preBalance + ((simTrade rp rr s i o).2).pnl := rfl

theorem simTrade_fst_currentBalance (rp rr : ℚ) (s : SimState) (i : ℕ) (o : Outcome) :
    ((simTrade rp rr s i o).1).currentBalance = ((simTrade rp rr s i o).2).afterBalance := rfl

theorem simTrade_fst_peakBalance (rp rr : ℚ) (s : SimState) (i : ℕ) (o : Outcome) :
    ((simTrade rp rr s i o).1).peakBalance = ((simTrade rp rr s i o).2).peakBalance := rfl

/-- Every record produced by the simulation loop is the output of a single
`simTrade` step from some intermediate state. -/
theorem mem_simLoop {rp rr : ℚ} {s : SimState} {i : ℕ} {os : List Outcome}
    {r : TradeRecord} (h : r ∈ (simLoop rp rr s i os).1) :
    ∃ s' j o, (simTrade rp rr s' j o).2 = r := by
  induction os generalizing s i with
  | nil => simp [simLoop_nil] at h
  | cons o rest ih =>
    rw [simLoop_cons] at h
    rcases List.mem_cons.mp h with h | h
    · exact ⟨s, i, o, h.symm⟩
    · exact ih h

theorem simLoop_length (rp rr : ℚ) (os : List Outcome) :
    ∀ (s : SimState) (i : ℕ), ((simLoop rp rr s i os).1).length = os.length := by
  induction os with
  | nil => intro s i; rfl
  | cons o rest ih =>
    intro s i
    rw [simLoop_cons]
    simp [ih]

theorem simLoop_get_tradeNumber (rp rr : ℚ) (os : List Outcome) :
    ∀ (s : SimState) (i j : ℕ) (hj : j < ((simLoop rp rr s i os).1).length),
      (((simLoop rp rr s i os).1).get ⟨j, hj⟩).tradeNumber = i + j + 1 := by
  induction os with
  | nil => intro s i j hj; rw [simLoop_nil] at hj; exact absurd hj (Nat.not_lt_zero j)
  | cons o rest ih =>
    intro s i j hj
    cases j with
    | zero => rfl
    | succ j =>
      have h' : j < ((simLoop rp rr (simTrade rp rr s i o).1 (i + 1) rest).1).length := by
        rw [simLoop_length] at hj ⊢
        simpa using hj
      have h2 := ih (simTrade rp rr s i o).1 (i + 1) j h'
      have h3 : (((simLoop rp rr s i (o :: rest)).1).get ⟨j + 1, hj⟩)
          = (((simLoop rp rr (simTrade rp rr s i o).1 (i + 1) rest).1).get ⟨j, h'⟩) := rfl
      rw [h3, h2]
      omega

theorem simTrade_snd_peak_ge_after (rp rr : ℚ) (s : SimState) (i : ℕ) (o : Outcome) :
    ((simTrade rp rr s i o).2).afterBalance ≤ ((simTrade rp rr s i o).2).peakBalance := by
  have h : ((simTrade rp rr s i o).2).peakBalance
      = if ((simTrade rp rr s i o).2).afterBalance > s.peakBalance
        then ((simTrade rp rr s i o).2).afterBalance else s.peakBalance := rfl
  rw [h]
  split
  · exact le_refl _
  · exact le_of_not_lt (by assumption)

theorem simTrade_snd_peak_ge_old (rp rr : ℚ) (s : SimState) (i : ℕ) (o : Outcome) :
    s.peakBalance ≤ ((simTrade rp rr s i o).2).peakBalance := by
  have h : ((simTrade rp rr s i o).2).peakBalance
      = if ((simTrade rp rr s i o).2).afterBalance > s.peakBalance
        then ((simTrade rp rr s i o).2).afterBalance else s.peakBalance := rfl
  rw [h]
  split
  · exact le_of_lt (by assumption)
  · exact le_refl _

theorem simTrade_snd_drawdown (rp rr : ℚ) (s : SimState) (i : ℕ) (o : Outcome) :
    ((simTrade rp rr s i o).2).drawdown
      = if ((simTrade rp rr s i o).2).peakBalance > 0
        then (((simTrade rp rr s i o).2).peakBalance - ((simTrade rp rr s i o).2).afterBalance)
              / ((simTrade rp rr s i o).2).peakBalance * 100
        else 0 := rfl

theorem simTrade_snd_drawdown_nonneg (rp rr : ℚ) (s : SimState) (i : ℕ) (o : Outcome) :
    0 ≤ ((simTrade rp rr s i o).2).drawdown := by
  rw [simTrade_snd_drawdown]
  split
  · have hafter := simTrade_snd_peak_ge_after rp rr s i o
    have hpos : (0 : ℚ) < ((simTrade rp rr s i o).2).peakBalance := by assumption
    have hnum : (0 : ℚ) ≤ ((simTrade rp rr s i o).2).peakBalance
        - ((simTrade rp rr s i o).2).afterBalance := sub_nonneg.mpr hafter
    exact mul_nonneg (div_nonneg hnum (le_of_lt hpos)) (by norm_num)
  · exact le_refl 0

/-- Each record's pre-balance equals the previous record's post-balance:
the state is carried forward between consecutive trades. -/
theorem simLoop_chain_pre (rp rr : ℚ) (os : List Outcome) :
    ∀ (s : SimState) (i : ℕ),
      List.Chain' (fun a b => b.preBalance = a.afterBalance) ((simLoop rp rr s i os).1) := by
  induction os with
  | nil => intro s i; rw [simLoop_nil]; exact List.chain'_nil
  | cons o rest ih =>
    intro s i
    rw [simLoop_cons, List.chain'_cons']
    refine ⟨?_, ih _ _⟩
    intro b hb
    cases rest with
    | nil => rw [simLoop_nil] at hb; simp at hb
    | cons o2 rest2 =>
      rw [simLoop_cons] at hb
      simp only [List.head?_cons, Option.mem_some_iff] at hb
      subst hb
      rw [simTrade_snd_preBalance, ← simTrade_fst_currentBalance]

/-- Each record's peak balance is at least the previous record's peak:
the peak sequence is non-decreasing. -/
theorem simLoop_chain_peak (rp rr : ℚ) (os : List Outcome) :
    ∀ (s : SimState) (i : ℕ),
      List.Chain' (fun a b => a.peakBalance ≤ b.peakBalance) ((simLoop rp rr s i os).1) := by
  induction os with
  | nil => intro s i; rw [simLoop_nil]; exact List.chain'_nil
  | cons o rest ih =>
    intro s i
    rw [simLoop_cons, List.chain'_cons']
    refine ⟨?_, ih _ _⟩
    intro b hb
    cases rest with
    | nil => rw [simLoop_nil] at hb; simp at hb
    | cons o2 rest2 =>
      rw [simLoop_cons] at hb
      simp only [List.head?_cons, Option.mem_some_iff] at hb
      subst hb
      rw [← simTrade_fst_peakBalance]
      exact simTrade_snd_peak_ge_old rp rr _ _ o2

/-- Each record's post-balance equals the loop's entry balance plus the sum
of the P&L column over the records up to and including it. -/
theorem simLoop_after_eq_sum (rp rr : ℚ) (os : List Outcome) :
    ∀ (s : SimState) (i j : ℕ) (hj : j < ((simLoop rp rr s i os).1).length),
      (((simLoop rp rr s i os).1).get ⟨j, hj⟩).afterBalance
        = s.currentBalance
          + ((((simLoop rp rr s i os).1).take (j + 1)).map TradeRecord.pnl).sum := by
  induction os with
  | nil => intro s i j hj; rw [simLoop_nil] at hj; exact absurd hj (Nat.not_lt_zero _)
  | cons o rest ih =>
    intro s i j hj
    cases j with
    | zero =>
      have h1 : (((simLoop rp rr s i (o :: rest)).1).get ⟨0, hj⟩)
          = (simTrade rp rr s i o).2 := rfl
      have h2 : ((simLoop rp rr s i (o :: rest)).1).take 1
          = [(simTrade rp rr s i o).2] := by rw [simLoop_cons]; rfl
      rw [h1, h2]
      simp only [List.map_cons, List.map_nil, List.sum_cons, List.sum_nil, add_zero]
      rw [simTrade_snd_afterBalance, simTrade_snd_preBalance]
    | succ j =>
      have h' : j < ((simLoop rp rr (simTrade rp rr s i o).1 (i + 1) rest).1).length := by
        rw [simLoop_length] at hj ⊢
        simpa using hj
      have ihj := ih (simTrade rp rr s i o).1 (i + 1) j h'
      have h1 : (((simLoop rp rr s i (o :: rest)).1).get ⟨j + 1, hj⟩)
          = (((simLoop rp rr (simTrade rp rr s i o).1 (i + 1) rest).1).get ⟨j, h'⟩) := rfl
      have h2 : ((simLoop rp rr s i (o :: rest)).1).take (j + 2)
          = (simTrade rp rr s i o).2
            :: ((simLoop rp rr (simTrade rp rr s i o).1 (i + 1) rest).1).take (j + 1) := by
        rw [simLoop_cons]; rfl
      rw [h1, ihj, h2, List.map_cons, List.sum_cons,
        simTrade_fst_currentBalance, simTrade_snd_afterBalance, simTrade_snd_preBalance]
      ring

/-- C1: for every trade, its After-Balance is its Pre-Balance plus its P&L;
consecutive records chain (the next Pre-Balance is the previous
After-Balance); and every After-Balance equals the initial account balance
plus the exact sum of P&L over all the trades so far. -/
theorem ledger_balance_chain (ab wr rr rp : ℚ) (outcomes : List Outcome) :
    (∀ r ∈ (run_simulation ab wr rr rp outcomes).1,
        r.afterBalance = r.preBalance + r.pnl) ∧
    (∀ (j : ℕ) (hj : j + 1 < ((run_simulation ab wr rr rp outcomes).1).length),
        (((run_simulation ab wr rr rp outcomes).1).get ⟨j + 1, hj⟩).preBalance
          = (((run_simulation ab wr rr rp outcomes).1).get
              ⟨j, Nat.lt_of_succ_lt hj⟩).afterBalance) ∧
    (∀ (j : ℕ) (hj : j < ((run_simulation ab wr rr rp outcomes).1).length),
        (((run_simulation ab wr rr rp outcomes).1).get ⟨j, hj⟩).afterBalance
          = ab + ((((run_simulation ab wr rr rp outcomes).1).take (j + 1)).map
              TradeRecord.pnl).sum) := by
  refine ⟨?_, ?_, ?_⟩
  · intro r hr
    obtain ⟨s', j, o, ho⟩ := mem_simLoop (s := initState ab) (i := 0) hr
    subst ho
    exact simTrade_snd_afterBalance rp rr s' j o
  · intro j hj
    have hc := simLoop_chain_pre rp rr outcomes (initState ab) 0
    have he : ((run_simulation ab wr rr rp outcomes).1).length
        = ((simLoop rp rr (initState ab) 0 outcomes).1).length := rfl
    have hlen : j < ((simLoop rp rr (initState ab) 0 outcomes).1).length - 1 := by omega
    exact List.chain'_iff_get.mp hc j hlen
  · intro j hj
    exact simLoop_after_eq_sum rp rr outcomes (initState ab) 0 j hj

/-- C1 witness: a two-trade run (win then loss) from balance 100 at risk 1/2,
reward:risk 1. -/
theorem ledger_balance_chain_witness :
    (((run_simulation 100 (1/2) 1 (1/2) [Outcome.win, Outcome.loss]).1).get
        ⟨1, by decide⟩).preBalance
      = (((run_simulation 100 (1/2) 1 (1/2) [Outcome.win, Outcome.loss]).1).get
          ⟨0, by decide⟩).afterBalance ∧
    (((run_simulation 100 (1/2) 1 (1/2) [Outcome.win, Outcome.loss]).1).get
        ⟨1, by decide⟩).afterBalance
      = 100 + ((((run_simulation 100 (1/2) 1 (1/2) [Outcome.win, Outcome.loss]).1).take 2).map
          TradeRecord.pnl).sum :=
  ⟨(ledger_balance_chain 100 (1/2) 1 (1/2) [Outcome.win, Outcome.loss]).2.1 0 (by decide),
   (ledger_balance_chain 100 (1/2) 1 (1/2) [Outcome.win, Outcome.loss]).2.2 1 (by decide)⟩

/-- C4: within a run the recorded Peak Balance sequence is non-decreasing,
and every recorded Drawdown is non-negative, where the drawdown is
`(peak - current) / peak * 100` when the peak is positive and `0`
otherwise. -/
theorem peak_monotone_drawdown_nonneg (ab wr rr rp : ℚ) (outcomes : List Outcome) :
    (∀ (j : ℕ) (hj : j + 1 < ((run_simulation ab wr rr rp outcomes).1).length),
        (((run_simulation ab wr rr rp outcomes).1).get
            ⟨j, Nat.lt_of_succ_lt hj⟩).peakBalance
          ≤ (((run_simulation ab wr rr rp outcomes).1).get ⟨j + 1, hj⟩).peakBalance) ∧
    (∀ r ∈ (run_simulation ab wr rr rp outcomes).1,
        0 ≤ r.drawdown ∧
        r.drawdown = if r.peakBalance > 0
          then (r.peakBalance - r.afterBalance) / r.peakBalance * 100 else 0) := by
  constructor
  · intro j hj
    have hc := simLoop_chain_peak rp rr outcomes (initState ab) 0
    have he : ((run_simulation ab wr rr rp outcomes).1).length
        = ((simLoop rp rr (initState ab) 0 outcomes).1).length := rfl
    have hlen : j < ((simLoop rp rr (initState ab) 0 outcomes).1).length - 1 := by omega
    exact List.chain'_iff_get.mp hc j hlen
  · intro r hr
    obtain ⟨s', j, o, ho⟩ := mem_simLoop (s := initState ab) (i := 0) hr
    subst ho
    exact ⟨simTrade_snd_drawdown_nonneg rp rr s' j o, simTrade_snd_drawdown rp rr s' j o⟩

/-- C4 witness: the two-trade run (win then loss); the loss trade records
drawdown 50 ≥ 0 and the peak does not decrease. -/
theorem peak_monotone_drawdown_nonneg_witness :
    (((run_simulation 100 (1/2) 1 (1/2) [Outcome.win, Outcome.loss]).1).get
        ⟨0, by decide⟩).peakBalance
      ≤ (((run_simulation 100 (1/2) 1 (1/2) [Outcome.win, Outcome.loss]).1).get
          ⟨1, by decide⟩).peakBalance ∧
    0 ≤ (⟨2, Outcome.loss, 150, 75, -75, 75, 50, 150⟩ : TradeRecord).drawdown :=
  ⟨(peak_monotone_drawdown_nonneg 100 (1/2) 1 (1/2) [Outcome.win, Outcome.loss]).1 0 (by decide),
   ((peak_monotone_drawdown_nonneg 100 (1/2) 1 (1/2) [Outcome.win, Outcome.loss]).2
      ⟨2, Outcome.loss, 150, 75, -75, 75, 50, 150⟩
      (by norm_num [run_simulation, simLoop, simTrade, initState])).1⟩

/-- C2: every trade's risk amount is the pre-trade (running) balance times
the risk fraction — compounding position sizing — and its P&L is
`risk_amount * reward_risk` on a Win and `-risk_amount` on a Loss. -/
theorem position_sizing_compounds (ab wr rr rp : ℚ) (outcomes : List Outcome) :
    ∀ r ∈ (run_simulation ab wr rr rp outcomes).1,
      r.riskAmount = r.preBalance * rp ∧
      (r.winLoss = Outcome.win → r.pnl = r.riskAmount * rr) ∧
      (r.winLoss = Outcome.loss → r.pnl = -r.riskAmount) := by
  intro r hr
  obtain ⟨s', j, o, ho⟩ := mem_simLoop (s := initState ab) (i := 0) hr
  subst ho
  refine ⟨simTrade_snd_riskAmount rp rr s' j o, ?_, ?_⟩
  · intro hwin
    rw [simTrade_snd_winLoss] at hwin
    subst hwin
    rw [simTrade_snd_pnl_win, simTrade_snd_riskAmount]
  · intro hloss
    rw [simTrade_snd_winLoss] at hloss
    subst hloss
    rw [simTrade_snd_pnl_loss, simTrade_snd_riskAmount]

/-- C2 witness: the single-trade run with balance 100, risk 1/2, reward:risk 1. -/
theorem position_sizing_compounds_witness :
    (⟨1, Outcome.win, 100, 50, 50, 150, 0, 150⟩ : TradeRecord).riskAmount
        = (⟨1, Outcome.win, 100, 50, 50, 150, 0, 150⟩ : TradeRecord).preBalance * (1/2) ∧
      ((⟨1, Outcome.win, 100, 50, 50, 150, 0, 150⟩ : TradeRecord).winLoss = Outcome.win →
        (⟨1, Outcome.win, 100, 50, 50, 150, 0, 150⟩ : TradeRecord).pnl
          = (⟨1, Outcome.win, 100, 50, 50, 150, 0, 150⟩ : TradeRecord).riskAmount * 1) ∧
      ((⟨1, Outcome.win, 100, 50, 50, 150, 0, 150⟩ : TradeRecord).winLoss = Outcome.loss →
        (⟨1, Outcome.win, 100, 50, 50, 150, 0, 150⟩ : TradeRecord).pnl
          = -(⟨1, Outcome.win, 100, 50, 50, 150, 0, 150⟩ : TradeRecord).riskAmount) :=
  position_sizing_compounds 100 (1/2) 1 (1/2) [Outcome.win]
    ⟨1, Outcome.win, 100, 50, 50, 150, 0, 150⟩
    (by norm_num [run_simulation, simLoop, simTrade, initState])

/-- C3: the ledger has exactly `trade_count` records, numbered `1..trade_count`
in order with no gaps, for any outcome sequence — the loop never terminates
early. -/
theorem ledger_complete (ab wr rr rp : ℚ) (outcomes : List Outcome)
    (_h : 1 ≤ outcomes.length) :
    ((run_simulation ab wr rr rp outcomes).1).length = outcomes.length ∧
    ∀ (j : ℕ) (hj : j < ((run_simulation ab wr rr rp outcomes).1).length),
      (((run_simulation ab wr rr rp outcomes).1).get ⟨j, hj⟩).tradeNumber = j + 1 := by
  constructor
  · exact simLoop_length rp rr outcomes (initState ab) 0
  · intro j hj
    have := simLoop_get_tradeNumber rp rr outcomes (initState ab) 0 j hj
    simpa using this

/-- C3 witness: a two-trade run has two records numbered 1 and 2. -/
theorem ledger_complete_witness :
    ((run_simulation 100 (1/2) 1 (1/2) [Outcome.win, Outcome.loss]).1).length = 2 ∧
    (((run_simulation 100 (1/2) 1 (1/2) [Outcome.win, Outcome.loss]).1).get
        ⟨1, by decide⟩).tradeNumber = 2 :=
  ⟨(ledger_complete 100 (1/2) 1 (1/2) [Outcome.win, Outcome.loss] (by decide)).1,
   (ledger_complete 100 (1/2) 1 (1/2) [Outcome.win, Outcome.loss] (by decide)).2 1 (by decide)⟩

theorem simTrade_after_win (rp rr : ℚ) (s : SimState) (i : ℕ) :
    ((simTrade rp rr s i Outcome.win).2).afterBalance
      = s.currentBalance * (1 + rp * rr) := by
  rw [simTrade_snd_afterBalance, simTrade_snd_preBalance, simTrade_snd_pnl_win]
  ring

theorem simTrade_after_loss (rp rr : ℚ) (s : SimState) (i : ℕ) :
    ((simTrade rp rr s i Outcome.loss).2).afterBalance
      = s.currentBalance * (1 - rp) := by
  rw [simTrade_snd_afterBalance, simTrade_snd_preBalance, simTrade_snd_pnl_loss]
  ring

/-- If the loop enters with a non-negative balance and the risk fraction is
in `(0, 1]` with a non-negative reward:risk ratio, every recorded pre-trade
balance is non-negative (the loss leg can never overdraw the account). -/
theorem simLoop_mem_pre_nonneg (rp rr : ℚ) (hrp0 : 0 < rp) (hrp1 : rp ≤ 1)
    (hrr : 0 ≤ rr) (os : List Outcome) :
    ∀ (s : SimState) (i : ℕ), 0 ≤ s.currentBalance →
      ∀ r ∈ (simLoop rp rr s i os).1, 0 ≤ r.preBalance := by
  induction os with
  | nil => intro s i hs r hr; rw [simLoop_nil] at hr; simp at hr
  | cons o rest ih =>
    intro s i hs r hr
    rw [simLoop_cons] at hr
    rcases List.mem_cons.mp hr with h | h
    · subst h
      rw [simTrade_snd_preBalance]
      exact hs
    · refine ih _ (i + 1) ?_ r h
      rw [simTrade_fst_currentBalance]
      cases o with
      | win =>
        rw [simTrade_after_win]
        have h1 : 0 ≤ rp * rr := mul_nonneg (le_of_lt hrp0) hrr
        exact mul_nonneg hs (by linarith)
      | loss =>
        rw [simTrade_after_loss]
        exact mul_nonneg hs (by linarith)

/-- With a strictly positive entry balance and peak, risk fraction strictly
inside `(0, 1)` and positive reward:risk ratio, all recorded balances and
peaks stay strictly positive. -/
theorem simLoop_mem_pos (rp rr : ℚ) (hrp0 : 0 < rp) (hrp1 : rp < 1) (hrr : 0 < rr)
    (os : List Outcome) :
    ∀ (s : SimState) (i : ℕ), 0 < s.currentBalance → 0 < s.peakBalance →
      ∀ r ∈ (simLoop rp rr s i os).1,
        0 < r.preBalance ∧ 0 < r.afterBalance ∧ 0 < r.peakBalance := by
  induction os with
  | nil => intro s i hs hp r hr; rw [simLoop_nil] at hr; simp at hr
  | cons o rest ih =>
    intro s i hs hp r hr
    have hafter : 0 < ((simTrade rp rr s i o).2).afterBalance := by
      cases o with
      | win =>
        rw [simTrade_after_win]
        have h1 : 0 < rp * rr := mul_pos hrp0 hrr
        exact mul_pos hs (by linarith)
      | loss =>
        rw [simTrade_after_loss]
        exact mul_pos hs (by linarith)
    have hpeak : 0 < ((simTrade rp rr s i o).2).peakBalance := by
      have h := simTrade_snd_peak_ge_after rp rr s i o
      linarith
    rw [simLoop_cons] at hr
    rcases List.mem_cons.mp hr with h | h
    · subst h
      exact ⟨by rw [simTrade_snd_preBalance]; exact hs, hafter, hpeak⟩
    · exact ih _ (i + 1) (by rw [simTrade_fst_currentBalance]; exact hafter)
        (by rw [simTrade_fst_peakBalance]; exact hpeak) r h

/-- C10: with positive initial balance, risk fraction strictly between 0 and 1
and positive reward:risk ratio, a Win multiplies the balance by
`1 + risk_percent * reward_risk` and a Loss by `1 - risk_percent`, so every
recorded Pre-Balance, After-Balance and Peak Balance is strictly positive and
every recorded Drawdown is strictly below 100, for any outcome sequence. -/
theorem balances_stay_positive (ab wr rr rp : ℚ) (outcomes : List Outcome)
    (hab : 0 < ab) (hrp0 : 0 < rp) (hrp1 : rp < 1) (hrr : 0 < rr) :
    ∀ r ∈ (run_simulation ab wr rr rp outcomes).1,
      (r.winLoss = Outcome.win → r.afterBalance = r.preBalance * (1 + rp * rr)) ∧
      (r.winLoss = Outcome.loss → r.afterBalance = r.preBalance * (1 - rp)) ∧
      0 < r.preBalance ∧ 0 < r.afterBalance ∧ 0 < r.peakBalance ∧ r.drawdown < 100 := by
  intro r hr
  have hpos := simLoop_mem_pos rp rr hrp0 hrp1 hrr outcomes (initState ab) 0 hab hab r hr
  obtain ⟨hpre, hafter, hpeak⟩ := hpos
  obtain ⟨s', j, o, ho⟩ := mem_simLoop (s := initState ab) (i := 0) hr
  refine ⟨?_, ?_, hpre, hafter, hpeak, ?_⟩
  · intro hw
    subst ho
    rw [simTrade_snd_winLoss] at hw
    subst hw
    rw [simTrade_after_win, simTrade_snd_preBalance]
  · intro hl
    subst ho
    rw [simTrade_snd_winLoss] at hl
    subst hl
    rw [simTrade_after_loss, simTrade_snd_preBalance]
  · have hdd : r.drawdown = if r.peakBalance > 0
        then (r.peakBalance - r.afterBalance) / r.peakBalance * 100 else 0 := by
      subst ho
      exact simTrade_snd_drawdown rp rr s' j o
    rw [hdd, if_pos hpeak]
    have h1 : (r.peakBalance - r.afterBalance) / r.peakBalance < 1 := by
      rw [div_lt_one hpeak]
      linarith
    nlinarith

/-- C10 witness: a single winning trade from balance 100 at risk 1/2,
reward:risk 1. -/
theorem balances_stay_positive_witness :
    ((⟨1, Outcome.win, 100, 50, 50, 150, 0, 150⟩ : TradeRecord).winLoss = Outcome.win →
      (⟨1, Outcome.win, 100, 50, 50, 150, 0, 150⟩ : TradeRecord).afterBalance
        = (⟨1, Outcome.win, 100, 50, 50, 150, 0, 150⟩ : TradeRecord).preBalance
            * (1 + (1/2) * 1)) ∧
    ((⟨1, Outcome.win, 100, 50, 50, 150, 0, 150⟩ : TradeRecord).winLoss = Outcome.loss →
      (⟨1, Outcome.win, 100, 50, 50, 150, 0, 150⟩ : TradeRecord).afterBalance
        = (⟨1, Outcome.win, 100, 50, 50, 150, 0, 150⟩ : TradeRecord).preBalance
            * (1 - 1/2)) ∧
    0 < (⟨1, Outcome.win, 100, 50, 50, 150, 0, 150⟩ : TradeRecord).preBalance ∧
    0 < (⟨1, Outcome.win, 100, 50, 50, 150, 0, 150⟩ : TradeRecord).afterBalance ∧
    0 < (⟨1, Outcome.win, 100, 50, 50, 150, 0, 150⟩ : TradeRecord).peakBalance ∧
    (⟨1, Outcome.win, 100, 50, 50, 150, 0, 150⟩ : TradeRecord).drawdown < 100 :=
  balances_stay_positive 100 (1/2) 1 (1/2) [Outcome.win]
    (by norm_num) (by norm_num) (by norm_num) (by norm_num)
    ⟨1, Outcome.win, 100, 50, 50, 150, 0, 150⟩
    (by norm_num [run_simulation, simLoop, simTrade, initState])

theorem initState_currentBalance (ab : ℚ) : (initState ab).currentBalance = ab := rfl

theorem initState_winCount (ab : ℚ) : (initState ab).winCount = 0 := rfl

theorem run_simulation_fst (ab wr rr rp : ℚ) (os : List Outcome) :
    (run_simulation ab wr rr rp os).1 = (simLoop rp rr (initState ab) 0 os).1 := rfl

/-- The final `win_count` equals the number of Win rows appended by the
loop (the loop enters with the state's count and adds one per Win). -/
theorem simLoop_winCount (rp rr : ℚ) (os : List Outcome) :
    ∀ (s : SimState) (i : ℕ),
      ((simLoop rp rr s i os).2).winCount
        = s.winCount + (((simLoop rp rr s i os).1).filter isWinRec).length := by
  induction os with
  | nil => intro s i; rw [simLoop_nil]; simp
  | cons o rest ih =>
    intro s i
    have htail := ih (simTrade rp rr s i o).1 (i + 1)
    have hw : ((simLoop rp rr s i (o :: rest)).2).winCount
        = ((simTrade rp rr s i o).1).winCount
          + ((((simLoop rp rr (simTrade rp rr s i o).1 (i + 1) rest).1).filter
              isWinRec).length) := htail
    cases o with
    | win =>
      have h1 : ((simTrade rp rr s i Outcome.win).1).winCount = s.winCount + 1 := rfl
      have h2 : ((simLoop rp rr s i (Outcome.win :: rest)).1).filter isWinRec
          = (simTrade rp rr s i Outcome.win).2
            :: (((simLoop rp rr (simTrade rp rr s i Outcome.win).1 (i + 1) rest).1).filter
                isWinRec) := by
        rw [simLoop_cons]
        simp only [List.filter_cons]
        have h3 : isWinRec ((simTrade rp rr s i Outcome.win).2) = true := rfl
        rw [h3]
        simp
      rw [hw, h1, h2, List.length_cons]
      omega
    | loss =>
      have h1 : ((simTrade rp rr s i Outcome.loss).1).winCount = s.winCount := rfl
      have h2 : ((simLoop rp rr s i (Outcome.loss :: rest)).1).filter isWinRec
          = (((simLoop rp rr (simTrade rp rr s i Outcome.loss).1 (i + 1) rest).1).filter
              isWinRec) := by
        rw [simLoop_cons]
        simp only [List.filter_cons]
        have h3 : isWinRec ((simTrade rp rr s i Outcome.loss).2) = false := rfl
        rw [h3]
        simp
      rw [hw, h1, h2]

/-- Every record is either a Win row or a Loss row: the two filters
partition the ledger. -/
theorem filter_win_loss_length (l : List TradeRecord) :
    (l.filter isWinRec).length + (l.filter isLossRec).length = l.length := by
  induction l with
  | nil => rfl
  | cons r rest ih =>
    cases hw : r.winLoss with
    | win =>
      have h1 : isWinRec r = true := by unfold isWinRec; rw [hw]
      have h2 : isLossRec r = false := by unfold isLossRec; rw [hw]
      simp only [List.filter_cons, h1, h2, if_true, if_false, List.length_cons]
      simp only [Bool.false_eq_true, if_false]
      omega
    | loss =>
      have h1 : isWinRec r = false := by unfold isWinRec; rw [hw]
      have h2 : isLossRec r = true := by unfold isLossRec; rw [hw]
      simp only [List.filter_cons, h1, h2, if_true, if_false, List.length_cons]
      simp only [Bool.false_eq_true, if_false]
      omega

/-- Under valid sizing parameters every Loss row's P&L is non-positive
(it is minus a non-negative risk amount). -/
theorem simLoop_mem_loss_pnl_nonpos (rp rr : ℚ) (hrp0 : 0 < rp) (hrp1 : rp ≤ 1)
    (hrr : 0 ≤ rr) (os : List Outcome) (s : SimState) (i : ℕ)
    (hs : 0 ≤ s.currentBalance) :
    ∀ r ∈ (simLoop rp rr s i os).1, isLossRec r = true → r.pnl ≤ 0 := by
  intro r hr hl
  have hpre := simLoop_mem_pre_nonneg rp rr hrp0 hrp1 hrr os s i hs r hr
  obtain ⟨s', j, o, ho⟩ := mem_simLoop hr
  cases o with
  | win =>
    exfalso
    rw [← ho] at hl
    exact absurd hl (by simp [isLossRec, simTrade_snd_winLoss])
  | loss =>
    rw [← ho, simTrade_snd_pnl_loss]
    rw [← ho, simTrade_snd_preBalance] at hpre
    exact neg_nonpos.mpr (mul_nonneg hpre (le_of_lt hrp0))

theorem sum_map_abs_of_nonpos (l : List ℚ) :
    (∀ x ∈ l, x ≤ 0) → (l.map (fun x => |x|)).sum = -l.sum := by
  induction l with
  | nil => intro _; simp
  | cons a rest ih =>
    intro h
    simp only [List.map_cons, List.sum_cons]
    rw [ih (fun x hx => h x (List.mem_cons_of_mem a hx)),
      abs_of_nonpos (h a (List.mem_cons_self a rest))]
    ring

/-- `abs(mean(l))` coincides with `mean(abs(l))` when every element of `l`
is non-positive — the code computes the former, the spec states the
latter. -/
theorem abs_listMean_of_nonpos (l : List ℚ) (h : ∀ x ∈ l, x ≤ 0) :
    |listMean l| = listMean (l.map (fun x => |x|)) := by
  unfold listMean
  rw [List.length_map, sum_map_abs_of_nonpos l h]
  have habs : 0 ≤ -l.sum := by
    have h1 : 0 ≤ (l.map (fun x => |x|)).sum := by
      apply List.sum_nonneg
      intro x hx
      obtain ⟨y, _, hy⟩ := List.mem_map.mp hx
      rw [← hy]
      exact abs_nonneg y
    rw [sum_map_abs_of_nonpos l h] at h1
    exact h1
  have hlen : (0 : ℚ) ≤ (l.length : ℚ) := Nat.cast_nonneg _
  rw [abs_of_nonpos (div_nonpos_of_nonpos_of_nonneg (by linarith) hlen), neg_div]

/-- The `avg_win` local of `run_simulation` (source line 144): mean P&L of
the Win rows when `win_count > 0`, else 0. -/
def avg_win (ab rr rp : ℚ) (os : List Outcome) : ℚ :=
  if ((simLoop rp rr (initState ab) 0 os).2).winCount > 0
  then listMean ((((simLoop rp rr (initState ab) 0 os).1).filter isWinRec).map
      TradeRecord.pnl)
  else 0

/-- The `avg_loss` local of `run_simulation` (source line 145): absolute
value of the mean P&L of the Loss rows when there is at least one loss,
else 0. -/
def avg_loss (ab rr rp : ℚ) (os : List Outcome) : ℚ :=
  if os.length - ((simLoop rp rr (initState ab) 0 os).2).winCount > 0
  then |listMean ((((simLoop rp rr (initState ab) 0 os).1).filter isLossRec).map
      TradeRecord.pnl)|
  else 0

theorem run_simulation_expectancy (ab wr rr rp : ℚ) (os : List Outcome) :
    (run_simulation ab wr rr rp os).2.expectancy
      = wr * avg_win ab rr rp os - (1 - wr) * avg_loss ab rr rp os := rfl

theorem run_simulation_expectancyR (ab wr rr rp : ℚ) (os : List Outcome) :
    (run_simulation ab wr rr rp os).2.expectancyR
      = if avg_loss ab rr rp os > 0
        then (run_simulation ab wr rr rp os).2.expectancy / avg_loss ab rr rp os
        else 0 := rfl

/-- The spec's wording (§4.3): `avg_win` = mean pnl over Win records, 0 if
no wins. -/
def avgWinSpec (records : List TradeRecord) : ℚ :=
  if records.filter isWinRec = [] then 0
  else listMean ((records.filter isWinRec).map TradeRecord.pnl)

/-- The spec's wording (§4.3): `avg_loss` = mean absolute pnl over Loss
records, 0 if no losses. -/
def avgLossSpec (records : List TradeRecord) : ℚ :=
  if records.filter isLossRec = [] then 0
  else listMean ((records.filter isLossRec).map (fun r => |r.pnl|))

theorem avg_win_eq_spec (ab rr rp : ℚ) (os : List Outcome) :
    avg_win ab rr rp os = avgWinSpec ((simLoop rp rr (initState ab) 0 os).1) := by
  unfold avg_win avgWinSpec
  rw [simLoop_winCount rp rr os (initState ab) 0, initState_winCount]
  rcases eq_or_ne ((((simLoop rp rr (initState ab) 0 os).1).filter isWinRec)) [] with he | he
  · rw [he]
    simp
  · have hlen : 0 < ((((simLoop rp rr (initState ab) 0 os).1).filter isWinRec)).length :=
      List.length_pos.mpr he
    rw [if_pos (by omega), if_neg he]

theorem avg_loss_eq_spec (ab rr rp : ℚ) (os : List Outcome)
    (hab : 0 ≤ ab) (hrp0 : 0 < rp) (hrp1 : rp ≤ 1) (hrr : 0 ≤ rr) :
    avg_loss ab rr rp os = avgLossSpec ((simLoop rp rr (initState ab) 0 os).1) := by
  unfold avg_loss avgLossSpec
  have hcond : os.length - ((simLoop rp rr (initState ab) 0 os).2).winCount
      = ((((simLoop rp rr (initState ab) 0 os).1).filter isLossRec)).length := by
    have hcount := simLoop_winCount rp rr os (initState ab) 0
    have hlen := simLoop_length rp rr os (initState ab) 0
    have hpart := filter_win_loss_length ((simLoop rp rr (initState ab) 0 os).1)
    rw [hcount, initState_winCount]
    omega
  rw [hcond]
  rcases eq_or_ne ((((simLoop rp rr (initState ab) 0 os).1).filter isLossRec)) [] with he | he
  · rw [he]
    simp
  · have hlen : 0 < ((((simLoop rp rr (initState ab) 0 os).1).filter isLossRec)).length :=
      List.length_pos.mpr he
    rw [if_pos hlen, if_neg he]
    have hsign : ∀ x ∈ ((((simLoop rp rr (initState ab) 0 os).1).filter isLossRec)).map
        TradeRecord.pnl, x ≤ 0 := by
      intro x hx
      obtain ⟨r, hrmem, hrx⟩ := List.mem_map.mp hx
      obtain ⟨hrrec, hrloss⟩ := List.mem_filter.mp hrmem
      rw [← hrx]
      exact simLoop_mem_loss_pnl_nonpos rp rr hrp0 hrp1 hrr os (initState ab) 0
        (by rw [initState_currentBalance]; exact hab) r hrrec hrloss
    rw [abs_listMean_of_nonpos _ hsign, List.map_map]
    rfl

/-- C5: the summary's expectancy is `win_rate * avg_win - (1 - win_rate) * avg_loss`
using the configured win rate, where avg_win is the mean P&L over Win records
(0 with no wins) and avg_loss the mean absolute P&L over Loss records (0 with
no losses); expectancy-R is expectancy / avg_loss when avg_loss > 0 and 0
otherwise. -/
theorem expectancy_formula (ab wr rr rp : ℚ) (outcomes : List Outcome)
    (hab : 0 ≤ ab) (hrp0 : 0 < rp) (hrp1 : rp ≤ 1) (hrr : 0 ≤ rr) :
    (run_simulation ab wr rr rp outcomes).2.expectancy
        = wr * avgWinSpec ((run_simulation ab wr rr rp outcomes).1)
          - (1 - wr) * avgLossSpec ((run_simulation ab wr rr rp outcomes).1) ∧
    (run_simulation ab wr rr rp outcomes).2.expectancyR
        = (if avgLossSpec ((run_simulation ab wr rr rp outcomes).1) > 0
           then (run_simulation ab wr rr rp outcomes).2.expectancy
                / avgLossSpec ((run_simulation ab wr rr rp outcomes).1)
           else 0) := by
  have hW := avg_win_eq_spec ab rr rp outcomes
  have hL := avg_loss_eq_spec ab rr rp outcomes hab hrp0 hrp1 hrr
  constructor
  · rw [run_simulation_expectancy, hW, hL, run_simulation_fst]
  · rw [run_simulation_expectancyR, hL, run_simulation_fst]

/-- C5 witness: the two-trade run (win then loss) from balance 100, win rate
1/2, reward:risk 1, risk 1/2. -/
theorem expectancy_formula_witness :
    (run_simulation 100 (1/2) 1 (1/2) [Outcome.win, Outcome.loss]).2.expectancy
        = (1/2) * avgWinSpec ((run_simulation 100 (1/2) 1 (1/2)
            [Outcome.win, Outcome.loss]).1)
          - (1 - 1/2) * avgLossSpec ((run_simulation 100 (1/2) 1 (1/2)
              [Outcome.win, Outcome.loss]).1) ∧
    (run_simulation 100 (1/2) 1 (1/2) [Outcome.win, Outcome.loss]).2.expectancyR
        = (if avgLossSpec ((run_simulation 100 (1/2) 1 (1/2)
              [Outcome.win, Outcome.loss]).1) > 0
           then (run_simulation 100 (1/2) 1 (1/2) [Outcome.win, Outcome.loss]).2.expectancy
                / avgLossSpec ((run_simulation 100 (1/2) 1 (1/2)
                    [Outcome.win, Outcome.loss]).1)
           else 0) :=
  expectancy_formula 100 (1/2) 1 (1/2) [Outcome.win, Outcome.loss]
    (by norm_num) (by norm_num) (by norm_num) (by norm_num)

/-- C6 counterexample: on the single-win run, the summary's Actual Win Rate
field is 100 — not the fraction 1 = (count of Win records)/trade_count — and
its Minimum Win Rate field is 100/3, not 1/(1+2): the summary stores both
rates multiplied by 100. -/
theorem summary_rates_fraction_counterexample :
    ¬ ((run_simulation 10000 1 2 (1/100) [Outcome.win]).2.actualWinRate
          = ((((run_simulation 10000 1 2 (1/100) [Outcome.win]).1).filter
              isWinRec).length : ℚ) / (([Outcome.win] : List Outcome).length : ℚ)
        ∧ (run_simulation 10000 1 2 (1/100) [Outcome.win]).2.minWinRate
          = 1 / (1 + 2)) := by
  intro h
  have h1 := h.1
  norm_num [run_simulation, simLoop, simTrade, initState, isWinRec, listMean,
    List.filter_cons] at h1

/-- C6 (amended): the summary reports both rates as percentages — Actual Win
Rate is 100 times the fraction of Win records over the trade count, Minimum
Win Rate is 100 times `1/(1+reward_risk)`, the latter independent of the
drawn outcome sequence. -/
theorem summary_rates_percent (ab wr rr rp : ℚ) (outcomes : List Outcome) :
    (run_simulation ab wr rr rp outcomes).2.actualWinRate
        = ((((run_simulation ab wr rr rp outcomes).1).filter isWinRec).length : ℚ)
          / (outcomes.length : ℚ) * 100 ∧
    (run_simulation ab wr rr rp outcomes).2.minWinRate = 1 / (1 + rr) * 100 ∧
    ∀ outcomes' : List Outcome,
      (run_simulation ab wr rr rp outcomes').2.minWinRate
        = (run_simulation ab wr rr rp outcomes).2.minWinRate := by
  refine ⟨?_, rfl, fun _ => rfl⟩
  have h : (run_simulation ab wr rr rp outcomes).2.actualWinRate
      = ((((simLoop rp rr (initState ab) 0 outcomes).2).winCount : ℚ)
          / (outcomes.length : ℚ)) * 100 := rfl
  rw [h, simLoop_winCount rp rr outcomes (initState ab) 0, initState_winCount,
    run_simulation_fst]
  norm_num

theorem calculate_losing_streak_eq_ite (wr n : ℝ) :
    calculate_losing_streak wr n
      = if wr ≥ 1 then (0 : EReal)
        else if Real.log (1 / (1 - wr)) = 0 then (⊤ : EReal)
        else ((Real.log n / Real.log (1 / (1 - wr)) : ℝ) : EReal) := rfl

/-- C7: for any sample size at least 1, the losing-streak estimator returns
exactly 0 whenever the win rate is at least 1 and positive infinity at win
rate 0 — well-defined sentinel values; the embedded function is total, so no
branch can fault. -/
theorem losing_streak_edge_cases (wr n : ℝ) (_hn : 1 ≤ n) :
    (1 ≤ wr → calculate_losing_streak wr n = 0) ∧
    calculate_losing_streak 0 n = ⊤ := by
  constructor
  · intro h
    rw [calculate_losing_streak_eq_ite, if_pos h]
  · rw [calculate_losing_streak_eq_ite, if_neg (by norm_num), if_pos (by norm_num)]

/-- C7 witness: at sample size 100, win rate 1 yields 0 and win rate 0 yields
positive infinity. -/
theorem losing_streak_edge_cases_witness :
    calculate_losing_streak 1 100 = 0 ∧ calculate_losing_streak 0 100 = ⊤ :=
  ⟨(losing_streak_edge_cases 1 100 (by norm_num)).1 (le_refl 1),
   (losing_streak_edge_cases 1 100 (by norm_num)).2⟩

/-- C8: for win rates strictly between 0 and 1 and sample sizes at least 1,
the estimator returns `log(sample_size) / log(1/(1-win_rate))`
deterministically; at win rate 1/2 and sample size 100 the value is
`log(100)/log(2)`, within 0.01 of 6.64. -/
theorem losing_streak_formula :
    (∀ wr n : ℝ, 0 < wr → wr < 1 → 1 ≤ n →
      calculate_losing_streak wr n
        = ((Real.log n / Real.log (1 / (1 - wr)) : ℝ) : EReal)) ∧
    (∃ x : ℝ, calculate_losing_streak (1/2) 100 = (x : EReal) ∧ |x - 6.64| < 1/100) := by
  have hgen : ∀ wr n : ℝ, 0 < wr → wr < 1 → 1 ≤ n →
      calculate_losing_streak wr n
        = ((Real.log n / Real.log (1 / (1 - wr)) : ℝ) : EReal) := by
    intro wr n h0 h1 hn
    have hden : 0 < Real.log (1 / (1 - wr)) :=
      Real.log_pos (one_lt_one_div (by linarith) (by linarith))
    rw [calculate_losing_streak_eq_ite, if_neg (not_le.mpr h1), if_neg (ne_of_gt hden)]
  refine ⟨hgen, Real.log 100 / Real.log 2, ?_, ?_⟩
  · have h2 : (1 : ℝ) / (1 - 1/2) = 2 := by norm_num
    rw [hgen (1/2) 100 (by norm_num) (by norm_num) (by norm_num), h2]
  · have hl2 : (0 : ℝ) < Real.log 2 := Real.log_pos (by norm_num)
    have hlt1 : (2 : ℝ) ^ (93 : ℕ) < (100 : ℝ) ^ (14 : ℕ) := by norm_num
    have hlt2 : (100 : ℝ) ^ (59 : ℕ) < (2 : ℝ) ^ (392 : ℕ) := by norm_num
    have hb1 : (93 : ℝ) * Real.log 2 < 14 * Real.log 100 := by
      have h := Real.log_lt_log (by positivity) hlt1
      rw [Real.log_pow, Real.log_pow] at h
      push_cast at h
      linarith
    have hb2 : (59 : ℝ) * Real.log 100 < 392 * Real.log 2 := by
      have h := Real.log_lt_log (by positivity) hlt2
      rw [Real.log_pow, Real.log_pow] at h
      push_cast at h
      linarith
    have hub : Real.log 100 / Real.log 2 < 133/20 := by
      rw [div_lt_iff₀ hl2]
      linarith
    have hlb : (663/100 : ℝ) < Real.log 100 / Real.log 2 := by
      rw [lt_div_iff₀ hl2]
      linarith
    rw [abs_sub_lt_iff]
    constructor <;> [linarith; linarith]

/-- C8 witness: at win rate 1/2 and sample size 100 the estimator equals the
closed-form ratio of logarithms. -/
theorem losing_streak_formula_witness :
    calculate_losing_streak (1/2) 100
      = ((Real.log 100 / Real.log (1 / (1 - 1/2)) : ℝ) : EReal) :=
  losing_streak_formula.1 (1/2) 100 (by norm_num) (by norm_num) (by norm_num)

/-- C9: the outcome source is seedable — with the same seed and identical
inputs, two invocations draw the identical outcome sequence and hence return
identical trade ledgers and summaries. -/
theorem simulate_deterministic (ab wr rr rp : ℚ) (n : ℕ) (seed1 seed2 : ℕ)
    (h : seed1 = seed2) :
    generateOutcomes wr n seed1 = generateOutcomes wr n seed2 ∧
    simulate ab wr rr rp n seed1 = simulate ab wr rr rp n seed2 := by
  subst h
  exact ⟨rfl, rfl⟩

/-- C9 witness: two invocations with seed 42 on identical inputs agree. -/
theorem simulate_deterministic_witness :
    generateOutcomes (1/2) 3 42 = generateOutcomes (1/2) 3 42 ∧
    simulate 100 (1/2) 1 (1/2) 3 42 = simulate 100 (1/2) 1 (1/2) 3 42 :=
  simulate_deterministic 100 (1/2) 1 (1/2) 3 42 42 rfl

end TradeSim
